import Mathlib

/-!
Verification of the diffH spatial reconciliation engine.

Shallow embedding of the relevant parts of the source:
  - `src/core/data_loader.py` (zone resolver),
  - `src/core/coordinate_transform.py` (transform dispatcher),
  - `src/core/geoportal_client.py` (elevation lookup client),
  - `src/core/grid_generator.py` (grid coverage selector),
  - `src/core/processor.py` (pairing + main processing).

Numeric values are modelled as `ℚ` (the Python code treats the
coordinates as plain real numbers; none of the verified claims depends on
binary floating-point rounding).  Euclidean distances appear in the source
only inside monotone comparisons and argmin selections, so they are
represented by squared distances, which order identically on nonnegative
reals.
-/

namespace DiffH

/-! ### Modelling Python's `str(int(coord))`

`int(coord)` truncates toward zero.  `str` of an integer is its decimal
form, preceded by a sign character when negative.  We model the string by
its length (`pyStrLen`) and its first character (`pyStrHeadSym`), encoding
a digit character by its value (`some d`) and the minus sign by `none`. -/

/-- Python `int(q)`: truncation toward zero. -/
def truncInt (q : ℚ) : ℤ := if 0 ≤ q then ⌊q⌋ else ⌈q⌉

/-- Fuel-driven computation of the number of decimal digits of `n`
(the length of Python's `str(n)` for `n ≥ 0`). -/
def digitsLenGo (fuel n : ℕ) : ℕ :=
  match fuel with
  | 0 => 1
  | fuel + 1 => if n < 10 then 1 else digitsLenGo fuel (n / 10) + 1

/-- Number of decimal digits of a natural number (`digitsLen 0 = 1`). -/
def digitsLen (n : ℕ) : ℕ := digitsLenGo n n

/-- Fuel-driven computation of the leading decimal digit of `n`. -/
def leadDigitGo (fuel n : ℕ) : ℕ :=
  match fuel with
  | 0 => n
  | fuel + 1 => if n < 10 then n else leadDigitGo fuel (n / 10)

/-- Leading decimal digit of a natural number. -/
def leadDigit (n : ℕ) : ℕ := leadDigitGo n n

/-- Length of Python's `str(n)` for an integer `n` (`"-"` counts). -/
def pyStrLen (n : ℤ) : ℕ :=
  if n < 0 then digitsLen n.natAbs + 1 else digitsLen n.toNat

/-- First character of Python's `str(n)`: `none` encodes `"-"`,
`some d` encodes the digit character for `d`. -/
def pyStrHeadSym (n : ℤ) : Option ℕ :=
  if n < 0 then none else some (leadDigit n.toNat)

/-! ### `data_loader.py` -/

/-- Embeds `has_easting_structure` (data_loader.py:287-299):
`coord_str = str(int(coord))`;
`len(coord_str) == 7 and coord_str[0] in ["5", "6", "7", "8"]`. -/
def has_easting_structure (c : ℚ) : Bool :=
  let n := truncInt c
  pyStrLen n == 7 &&
    match pyStrHeadSym n with
    | none => false
    | some d => d == 5 || d == 6 || d == 7 || d == 8

/-- Embeds the dict lookup `{"5": 2176, "6": 2177, "7": 2178, "8": 2179}.get(ch)`
from `get_source_epsg`, on the symbolic first character. -/
def zoneTable (ch : Option ℕ) : Option ℤ :=
  match ch with
  | none => none
  | some d =>
      if d = 5 then some 2176
      else if d = 6 then some 2177
      else if d = 7 then some 2178
      else if d = 8 then some 2179
      else none

/-- Embeds `get_source_epsg` (data_loader.py:323-337):
`easting_str = str(int(easting_coordinate))`;
if `len(easting_str) == 7` look the first character up in the zone dict,
otherwise return `None`. -/
def get_source_epsg (c : ℚ) : Option ℤ :=
  let n := truncInt c
  if pyStrLen n = 7 then zoneTable (pyStrHeadSym n) else none

/-- Spec-side zone resolution, written from the spec's words (for the C3
refinement comparison): take the leading digit of the value's 7-digit
integer form and map `5→2176, 6→2177, 7→2178, 8→2179`; absent for any
other leading digit or any value whose integer form is not exactly 7
digits (a negative value's form carries a sign, hence is never exactly 7
digits). -/
def resolveZoneSpec (c : ℚ) : Option ℤ :=
  let n := truncInt c
  if 0 ≤ n ∧ digitsLen n.toNat = 7 then
    if leadDigit n.toNat = 5 then some 2176
    else if leadDigit n.toNat = 6 then some 2177
    else if leadDigit n.toNat = 7 then some 2178
    else if leadDigit n.toNat = 8 then some 2179
    else none
  else none

/-- One parsed input record: `{id, x, y, h}` (load_data output). -/
structure RawRow where
  id : String
  x : ℚ
  y : ℚ
  h : ℚ
deriving DecidableEq

/-- A record with the resolved `geodetic_northing` / `geodetic_easting`
columns attached. -/
structure GeoRow where
  row : RawRow
  geodetic_northing : ℚ
  geodetic_easting : ℚ
deriving DecidableEq

/-- Embeds `assign_geodetic_roles` (data_loader.py:302-320): read the first
row only; if its `y` has easting structure, set `northing := x`,
`easting := y` on every row; else if its `x` has easting structure, set
`northing := y`, `easting := x`; else default to `northing := x`,
`easting := y`.  The empty frame is returned unchanged. -/
def assign_geodetic_roles (rows : List RawRow) : List GeoRow :=
  match rows with
  | [] => []
  | r0 :: _ =>
    if has_easting_structure r0.y then
      rows.map (fun r => ⟨r, r.x, r.y⟩)
    else if has_easting_structure r0.x then
      rows.map (fun r => ⟨r, r.y, r.x⟩)
    else
      rows.map (fun r => ⟨r, r.x, r.y⟩)

/-! ### `coordinate_transform.py`

The pyproj library is external: `Transformer.from_crs(f"EPSG:{z}", "EPSG:2180")`
is modelled by an oracle `fromCrs z`, which either fails (`none`, the
`CRSError` branch) or yields a pure coordinate mapping
`(easting, northing) ↦ (x_out, y_out)`. -/

/-- Abstract pyproj environment. -/
structure TransEnv where
  fromCrs : ℤ → Option (ℚ → ℚ → ℚ × ℚ)

/-- Embeds `worker_transform` (coordinate_transform.py:46-65).  The worker
receives `(index, northing, easting)`, resolves the zone with
`get_source_epsg(easting)` (returning `None` if absent), then constructs a
transformer for that zone and applies it.  The second component counts the
`Transformer.from_crs` constructor calls this invocation performs: the
constructor is reached exactly when the zone resolves (both the success
branch and the `CRSError` branch have constructed it). -/
def worker_transform (env : TransEnv) (p : ℕ × ℚ × ℚ) : Option (ℚ × ℚ) × ℕ :=
  match get_source_epsg p.2.2 with
  | none => (none, 0)
  | some z =>
      match env.fromCrs z with
      | none => (none, 1)
      | some f => (some (f p.2.2 p.2.1), 1)

/-- Embeds `points_to_transform = list(zip(range(len(df)), df["geodetic_northing"],
df["geodetic_easting"]))` (coordinate_transform.py:111-113). -/
def points_to_transform (df : List GeoRow) : List (ℕ × ℚ × ℚ) :=
  df.enum.map (fun p => (p.1, p.2.geodetic_northing, p.2.geodetic_easting))

/-- Embeds the CPU path of `transform_coordinates_parallel`
(coordinate_transform.py:107-127): `pool.imap(worker_transform, pts)`
returns the workers' results in input order, hence a `List.map`. -/
def transform_coordinates_parallel (env : TransEnv) (df : List GeoRow) :
    List (Option (ℚ × ℚ)) :=
  (points_to_transform df).map (fun p => (worker_transform env p).1)

/-- Total number of `Transformer.from_crs` constructor calls performed by
one run of the CPU dispatcher path (sum of the per-worker counts). -/
def cpu_transformer_constructions (env : TransEnv) (df : List GeoRow) : ℕ :=
  ((points_to_transform df).map (fun p => (worker_transform env p).2)).sum

/-- The distinct resolved zone ids of a dataset (the zone partitions that a
zone-grouped dispatcher, such as `transform_coordinates_cuda_optimized` in
cuda_transform.py:260-273, would construct one transformer for). -/
def resolved_zones (df : List GeoRow) : List ℤ :=
  (df.filterMap (fun r => get_source_epsg r.geodetic_easting)).dedup

/-! ### Theorems for C3, C9, C7 -/

/-- Helper: the zone dict yields a value exactly on the four digit
characters 5–8. -/
theorem zoneTable_isSome (ch : Option ℕ) :
    (zoneTable ch).isSome = match ch with
      | none => false
      | some d => d == 5 || d == 6 || d == 7 || d == 8 := by
  cases ch with
  | none => rfl
  | some d =>
    show (zoneTable (some d)).isSome = (d == 5 || d == 6 || d == 7 || d == 8)
    unfold zoneTable
    by_cases h5 : d = 5
    · subst h5; rfl
    by_cases h6 : d = 6
    · subst h6; rfl
    by_cases h7 : d = 7
    · subst h7; rfl
    by_cases h8 : d = 8
    · subst h8; rfl
    simp [h5, h6, h7, h8]

/-- C3: zone resolution agrees everywhere with the spec's rule (7-digit
integer form, leading digit mapped through the injective table
`5→2176, 6→2177, 7→2178, 8→2179`, absent otherwise); the four zone ids
are pairwise distinct; easting `7512345.0` resolves to the `'7'` zone
`2178` and easting `512345.0` (6 digits) resolves to absent. -/
theorem c3_zone_resolution :
    (∀ c : ℚ, get_source_epsg c = resolveZoneSpec c)
    ∧ [zoneTable (some 5), zoneTable (some 6), zoneTable (some 7),
        zoneTable (some 8)].Nodup
    ∧ get_source_epsg (7512345 : ℚ) = some 2178
    ∧ get_source_epsg (512345 : ℚ) = none := by
  refine ⟨?_, by decide, by decide, by decide⟩
  intro c
  unfold get_source_epsg resolveZoneSpec pyStrLen pyStrHeadSym
  by_cases hn : truncInt c < 0
  · have hns : ¬(0 ≤ truncInt c ∧ digitsLen (truncInt c).toNat = 7) :=
      fun h => absurd h.1 (not_le.mpr hn)
    simp only [hn, if_true, hns, if_false]
    split <;> rfl
  · have h0 : 0 ≤ truncInt c := not_lt.mp hn
    simp only [hn, if_false, h0, true_and]
    by_cases h7 : digitsLen (truncInt c).toNat = 7
    · simp only [h7, if_true]
      rfl
    · simp [h7]

/-- C9: the zone lookup returns a zone id exactly when the easting-shape
test accepts the value: `(get_source_epsg c).isSome = has_easting_structure c`
for every coordinate `c`. -/
theorem c9_zone_lookup_iff_easting_shape (c : ℚ) :
    (get_source_epsg c).isSome = has_easting_structure c := by
  unfold get_source_epsg has_easting_structure
  by_cases h7 : pyStrLen (truncInt c) = 7
  · simp only [h7, if_true, beq_self_eq_true, Bool.true_and]
    exact zoneTable_isSome _
  · simp [h7]

/-- C7: axis-role assignment is decided from the first row only and applied
uniformly to every row: if the first row's `y` has the easting shape, every
row gets `northing = x`, `easting = y` regardless of later rows' shapes;
else if the first row's `x` has the easting shape, every row gets
`northing = y`, `easting = x`; otherwise every row defaults to
`northing = x`, `easting = y`. -/
theorem c7_role_assignment (r0 : RawRow) (rest : List RawRow) :
    (has_easting_structure r0.y = true →
      assign_geodetic_roles (r0 :: rest) =
        (r0 :: rest).map (fun r => ⟨r, r.x, r.y⟩))
    ∧ (has_easting_structure r0.y = false → has_easting_structure r0.x = true →
      assign_geodetic_roles (r0 :: rest) =
        (r0 :: rest).map (fun r => ⟨r, r.y, r.x⟩))
    ∧ (has_easting_structure r0.y = false → has_easting_structure r0.x = false →
      assign_geodetic_roles (r0 :: rest) =
        (r0 :: rest).map (fun r => ⟨r, r.x, r.y⟩)) := by
  refine ⟨fun hy => ?_, fun hy hx => ?_, fun hy hx => ?_⟩ <;>
    simp [assign_geodetic_roles, hy]
  · simp [hx]
  · simp [hx]

/-- Witness for C7: a concrete two-row dataset whose first row's `y` has
the easting shape while the second row's values do not; every row is still
assigned `northing = x`, `easting = y`. -/
theorem c7_witness :
    assign_geodetic_roles [⟨"A", 5900000, 7500000, 10⟩, ⟨"B", 1, 2, 3⟩] =
      ([⟨"A", 5900000, 7500000, 10⟩, ⟨"B", 1, 2, 3⟩] : List RawRow).map
        (fun r => ⟨r, r.x, r.y⟩) :=
  (c7_role_assignment ⟨"A", 5900000, 7500000, 10⟩ [⟨"B", 1, 2, 3⟩]).1
    (by decide)

/-! ### Theorems for C8 and C1 -/

/-- Helper: a worker performs one `from_crs` construction exactly when the
point's zone resolves. -/
theorem worker_transform_count (env : TransEnv) (p : ℕ × ℚ × ℚ) :
    (worker_transform env p).2 =
      if (get_source_epsg p.2.2).isSome then 1 else 0 := by
  unfold worker_transform
  cases hz : get_source_epsg p.2.2 with
  | none => simp [hz]
  | some z => cases hf : env.fromCrs z <;> simp [hz, hf]

/-- C8: for an input of `N` points the CPU dispatcher output has exactly `N`
entries and entry `i` is the (optional) worker result for input point `i`;
entries are never reordered relative to the input. -/
theorem c8_output_position_aligned (env : TransEnv) (df : List GeoRow) :
    (transform_coordinates_parallel env df).length = df.length ∧
    ∀ i : ℕ, (transform_coordinates_parallel env df)[i]? =
      (df[i]?).map (fun r =>
        (worker_transform env (i, r.geodetic_northing, r.geodetic_easting)).1) := by
  constructor
  · simp [transform_coordinates_parallel, points_to_transform]
  · intro i
    simp only [transform_coordinates_parallel, points_to_transform,
      List.getElem?_map, List.getElem?_enum, Option.map_map]
    rfl

/-- Helper for the C1 amendment: summing worker construction counts over an
`enumFrom` enumeration counts the zone-resolved rows. -/
theorem sum_worker_counts_enumFrom (env : TransEnv) :
    ∀ (k : ℕ) (df : List GeoRow),
      (((df.enumFrom k).map
          (fun p => (p.1, p.2.geodetic_northing, p.2.geodetic_easting))).map
        (fun p => (worker_transform env p).2)).sum =
      df.countP (fun r => (get_source_epsg r.geodetic_easting).isSome) := by
  intro k df
  induction df generalizing k with
  | nil => rfl
  | cons r t ih =>
    simp only [List.enumFrom, List.map_cons, List.sum_cons, List.countP_cons]
    rw [ih (k + 1), worker_transform_count]
    by_cases h : (get_source_epsg r.geodetic_easting).isSome <;>
      simp [h, Nat.add_comm]

/-- C1 (amended): the CPU dispatcher path cited by the claim does not build
one transformer per zone partition — it constructs a transformer anew for
every point whose zone resolves, so the number of `from_crs` constructions
in a run equals the number of zone-resolved points (repeated across points
sharing a zone), not the number of distinct zones. -/
theorem c1_amended_per_point_construction (env : TransEnv) (df : List GeoRow) :
    cpu_transformer_constructions env df =
      df.countP (fun r => (get_source_epsg r.geodetic_easting).isSome) := by
  unfold cpu_transformer_constructions points_to_transform
  rw [List.enum]
  exact sum_worker_counts_enumFrom env 0 df

/-- Concrete two-point dataset, both points in the `'7'` zone (2178). -/
def c1df : List GeoRow :=
  [⟨⟨"P1", 5900000, 7512345, 1⟩, 5900000, 7512345⟩,
   ⟨⟨"P2", 5900001, 7512346, 2⟩, 5900001, 7512346⟩]

/-- C1 counterexample: on a run with two points in a single zone partition
the cited CPU dispatcher performs two transformer constructions, not the
"exactly one per zone partition" the claim states. -/
theorem c1_counterexample :
    (resolved_zones c1df).length = 1 ∧
    cpu_transformer_constructions ⟨fun _ => none⟩ c1df ≠
      (resolved_zones c1df).length := by
  constructor
  · rfl
  · intro h
    simp only [cpu_transformer_constructions, points_to_transform] at h
    revert h
    decide

/-! ### `geoportal_client.py` and `config/settings.py` -/

/-- Embeds `API_MAX_RETRIES` (settings.py:9). -/
def API_MAX_RETRIES : ℕ := 5

/-- One attempt's outcome at the elevation endpoint, as the code observes
it: `fail` models a raised `RequestException` (timeout, connection error,
or `raise_for_status` on a non-2xx); `emptyText` a 2xx response whose body
strips to the empty string; `body lines` a 2xx response split into its
3-field lines, each carrying its `"northing easting"` key string and the
result of `float(h)` (`none` models a `ValueError`). -/
inductive ApiResponse where
  | fail : ApiResponse
  | emptyText : ApiResponse
  | body : List (String × Option ℚ) → ApiResponse

/-- Embeds the response-parsing loop of `fetch_height_batch`
(geoportal_client.py:39-54): build up `batch_heights` (an unparseable
height stores `0.0`) while tracking the `all_zero` flag, which only a
parsed non-zero value clears.  The dict is modelled as the list of
insertions in order (no claim depends on key-overwrite behaviour). -/
def parseBody (lines : List (String × Option ℚ)) : List (String × ℚ) × Bool :=
  lines.foldl
    (fun acc l =>
      match l.2 with
      | some v => (acc.1 ++ [(l.1, v)], acc.2 && decide (v = 0))
      | none => (acc.1 ++ [(l.1, (0 : ℚ))], acc.2))
    ([], true)

/-- Embeds the retry loop of `fetch_height_batch` (geoportal_client.py:33-70),
driven by an oracle giving each attempt's outcome.  Attempts run
`1..API_MAX_RETRIES`; a network failure or an empty body moves on to the
next attempt; a parsed body whose heights are all zero is retried unless
this is the last attempt; any other body is returned at once.  Exhausting
the loop returns the empty dict.  `fuel` is the number of attempts left
(`attempt + fuel = API_MAX_RETRIES + 1` throughout a run). -/
def fetch_loop (attempts : ℕ → ApiResponse) : ℕ → ℕ → List (String × ℚ)
  | _, 0 => []
  | attempt, fuel + 1 =>
    match attempts attempt with
    | .fail => fetch_loop attempts (attempt + 1) fuel
    | .emptyText => fetch_loop attempts (attempt + 1) fuel
    | .body lines =>
      let parsed := parseBody lines
      if parsed.2 && decide (attempt < API_MAX_RETRIES) then
        fetch_loop attempts (attempt + 1) fuel
      else parsed.1

/-- Embeds `fetch_height_batch` (geoportal_client.py:13-70): an empty batch
returns the empty dict without any request; otherwise the retry loop runs
starting at attempt 1. -/
def fetch_height_batch (batch : List (ℚ × ℚ)) (attempts : ℕ → ApiResponse) :
    List (String × ℚ) :=
  if batch = [] then [] else fetch_loop attempts 1 API_MAX_RETRIES

/-- The attempt outcomes that make the loop move on to the next attempt
(when one remains): network failure, empty body, all-zero parsed body. -/
def retryTrigger : ApiResponse → Bool
  | .fail => true
  | .emptyText => true
  | .body lines => (parseBody lines).2

/-! ### Theorem for C6 -/

/-- Helper: if every attempt from `attempt` up to the cap triggers a retry,
the loop reaches the final attempt and returns its parsed body. -/
theorem fetch_loop_retries (attempts : ℕ → ApiResponse)
    (lines : List (String × Option ℚ))
    (hlast : attempts API_MAX_RETRIES = .body lines) :
    ∀ fuel attempt : ℕ, attempt + fuel = API_MAX_RETRIES + 1 → 1 ≤ fuel →
      (∀ k, attempt ≤ k → k < API_MAX_RETRIES → retryTrigger (attempts k) = true) →
      fetch_loop attempts attempt fuel = (parseBody lines).1 := by
  intro fuel
  induction fuel with
  | zero => intro attempt _ h1 _; omega
  | succ n ih =>
    intro attempt hsum _ htrig
    by_cases hn : n = 0
    · subst hn
      have ha : attempt = API_MAX_RETRIES := by omega
      subst ha
      unfold fetch_loop
      rw [hlast]
      simp
    · have hlt : attempt < API_MAX_RETRIES := by
        simp only [API_MAX_RETRIES] at hsum ⊢; omega
      have ht := htrig attempt le_rfl hlt
      have hrec := ih (attempt + 1) (by omega) (by omega)
        (fun k hk1 hk2 => htrig k (by omega) hk2)
      unfold fetch_loop
      cases ha : attempts attempt with
      | fail => exact hrec
      | emptyText => exact hrec
      | body l =>
        have hz : (parseBody l).2 = true := by
          simpa [retryTrigger, ha] using ht
        simp only [hz, Bool.true_and, decide_eq_true hlt, if_true]
        exact hrec

/-- C6: with a non-empty batch, if every attempt before the cap triggers a
retry (network failure, empty body, or all-zero heights), the request is
retried up to `API_MAX_RETRIES`; the final attempt's parsed body is then
accepted and returned as-is — in particular an all-zero final body is
returned, not discarded. -/
theorem c6_retry_cap_and_last_accepted (attempts : ℕ → ApiResponse)
    (batch : List (ℚ × ℚ)) (lines : List (String × Option ℚ))
    (hb : batch ≠ [])
    (hretry : ∀ k, 1 ≤ k → k < API_MAX_RETRIES → retryTrigger (attempts k) = true)
    (hlast : attempts API_MAX_RETRIES = .body lines) :
    fetch_height_batch batch attempts = (parseBody lines).1 := by
  unfold fetch_height_batch
  rw [if_neg hb]
  exact fetch_loop_retries attempts lines hlast API_MAX_RETRIES 1 rfl
    (by norm_num [API_MAX_RETRIES]) hretry

/-- Oracle for the C6 witness: every attempt answers with a well-formed
single-line body whose height is exactly zero. -/
def c6oracle : ℕ → ApiResponse :=
  fun _ => .body [("500000.00 300000.00", some 0)]

/-- Witness for C6: with the all-zero oracle, the batch is retried through
all five attempts and the fifth all-zero answer is returned, not
discarded. -/
theorem c6_witness :
    fetch_height_batch [((300000 : ℚ), (500000 : ℚ))] c6oracle =
      [("500000.00 300000.00", (0 : ℚ))] :=
  c6_retry_cap_and_last_accepted c6oracle [((300000 : ℚ), (500000 : ℚ))]
    [("500000.00 300000.00", some 0)]
    (by simp) (fun k _ _ => rfl) rfl

/-! ### `grid_generator.py`

`znajdz_punkty_dla_siatki` (grid_generator.py:87-158) first coerces the
candidate columns to numbers and drops incomplete rows (modelled by taking
the already-numeric candidate list), generates the sorted hex centers with
`generuj_srodki_heksagonalne_wektorowo` (numpy meshes filtered by
matplotlib's external point-in-polygon test, with floating `np.sqrt(3)`
row spacing — modelled by passing the resulting center list as a
parameter; the claims hold for every center list), and then runs the
greedy claim loop, which is embedded below.  Euclidean quantities are
compared through their squares. -/

/-- One coerced candidate row
`(x_odniesienia, y_odniesienia, h_odniesienia, geoportal_h)`. -/
structure Cand where
  x : ℚ
  y : ℚ
  hRef : ℚ
  hGeo : ℚ
deriving DecidableEq

/-- Squared planar Euclidean distance. -/
def distSq (p q : ℚ × ℚ) : ℚ := (p.1 - q.1) ^ 2 + (p.2 - q.2) ^ 2

/-- Row `i` of the candidate array (all indices used by the loop are in
range; out-of-range access defaults). -/
def candAt (cs : List Cand) (i : ℕ) : Cand := cs.getD i ⟨0, 0, 0, 0⟩

/-- Selection key of `min(aktualni_kandydaci_idx, key=...)`
(grid_generator.py:137-143): the pair
`(|h_odniesienia − geoportal_h|, distance to the center)`, with the
distance component squared. -/
def candKey (c : Cand) (s : ℚ × ℚ) : ℚ × ℚ :=
  (|c.hRef - c.hGeo|, distSq (c.x, c.y) s)

/-- Python's strict `<` on 2-tuples: lexicographic. -/
def keyLt (a b : ℚ × ℚ) : Bool :=
  decide (a.1 < b.1 ∨ (a.1 = b.1 ∧ a.2 < b.2))

/-- Embeds Python's `min(i :: t, key=f)`: fold keeping the first element of
strictly minimal key. -/
def minByKey (key : ℕ → ℚ × ℚ) : List ℕ → Option ℕ
  | [] => none
  | i :: t =>
      some (t.foldl (fun b j => if keyLt (key j) (key b) then j else b) i)

/-- Embeds `aktualni_kandydaci_idx` of one center-loop iteration
(grid_generator.py:125-135): `query_ball_point` collects the candidate
indices within the search radius, and indices already in
`odwiedzone_indeksy_w_np` are dropped.  The claimed set is exactly the set
of winners so far, so the winners list is the whole loop state. -/
def gridFresh (cs : List Cand) (r : ℚ) (winners : List ℕ) (s : ℚ × ℚ) :
    List ℕ :=
  ((List.range cs.length).filter
    (fun i => decide (distSq ((candAt cs i).x, (candAt cs i).y) s ≤ r ^ 2))).filter
    (fun i => decide (i ∉ winners))

/-- The selection made for one center: `continue` on an empty remainder,
otherwise append (claim) the minimal-key candidate. -/
def gridStep (cs : List Cand) (r : ℚ) (winners : List ℕ) (s : ℚ × ℚ) :
    List ℕ :=
  match minByKey (fun i => candKey (candAt cs i) s) (gridFresh cs r winners s) with
  | none => winners
  | some b => winners ++ [b]

/-- Embeds the center loop of `znajdz_punkty_dla_siatki` with search radius
`odleglosc_siatki / 2`, returning the winner indices in center-processing
order. -/
def znajdz_punkty_dla_siatki (cs : List Cand) (centers : List (ℚ × ℚ))
    (d : ℚ) : List ℕ :=
  centers.foldl (gridStep cs (d / 2)) []

/-! ### Theorems for C2 and C4 -/

/-- Helper: `keyLt` is irreflexive. -/
theorem keyLt_irrefl (a : ℚ × ℚ) : keyLt a a = false := by
  simp [keyLt]

/-- Helper: `keyLt` is transitive. -/
theorem keyLt_trans {a b c : ℚ × ℚ} (h1 : keyLt a b = true)
    (h2 : keyLt b c = true) : keyLt a c = true := by
  simp only [keyLt, decide_eq_true_eq] at h1 h2 ⊢
  rcases h1 with h1 | ⟨e1, h1⟩ <;> rcases h2 with h2 | ⟨e2, h2⟩
  · exact Or.inl (lt_trans h1 h2)
  · exact Or.inl (e2 ▸ h1)
  · exact Or.inl (e1 ▸ h2)
  · exact Or.inr ⟨e1.trans e2, lt_trans h1 h2⟩

/-- Helper: the fold inside `minByKey` lands in the seen elements and is
minimal among them. -/
theorem minFold_spec (key : ℕ → ℚ × ℚ) :
    ∀ (t seen : List ℕ) (acc : ℕ), acc ∈ seen →
      (∀ j ∈ seen, keyLt (key j) (key acc) = false) →
      (t.foldl (fun b j => if keyLt (key j) (key b) then j else b) acc) ∈ seen ++ t
      ∧ ∀ j ∈ seen ++ t,
          keyLt (key j)
            (key (t.foldl (fun b j => if keyLt (key j) (key b) then j else b) acc))
            = false := by
  intro t
  induction t with
  | nil =>
    intro seen acc hmem hmin
    simpa using ⟨hmem, hmin⟩
  | cons j t ih =>
    intro seen acc hmem hmin
    simp only [List.foldl_cons]
    by_cases hj : keyLt (key j) (key acc) = true
    · rw [if_pos hj]
      have h1 : j ∈ seen ++ [j] := by simp
      have h2 : ∀ x ∈ seen ++ [j], keyLt (key x) (key j) = false := by
        intro x hx
        rcases List.mem_append.mp hx with hx | hx
        · by_contra hcon
          have hxj : keyLt (key x) (key j) = true := by
            cases h : keyLt (key x) (key j)
            · exact absurd h hcon
            · rfl
          have hxa : keyLt (key x) (key acc) = true := keyLt_trans hxj hj
          rw [hmin x hx] at hxa
          exact Bool.false_ne_true hxa
        · simp only [List.mem_singleton] at hx
          subst hx
          exact keyLt_irrefl _
      have := ih (seen ++ [j]) j h1 h2
      simpa [List.append_assoc] using this
    · rw [if_neg hj]
      have h2 : ∀ x ∈ seen ++ [j], keyLt (key x) (key acc) = false := by
        intro x hx
        rcases List.mem_append.mp hx with hx | hx
        · exact hmin x hx
        · simp only [List.mem_singleton] at hx
          subst hx
          exact Bool.eq_false_iff.mpr hj
      have := ih (seen ++ [j]) acc (by simp [hmem]) h2
      simpa [List.append_assoc] using this

/-- Helper: `minByKey` returns a member of its input that no other member
strictly beats (Python's `min` with a key function). -/
theorem minByKey_spec (key : ℕ → ℚ × ℚ) (l : List ℕ) (b : ℕ)
    (h : minByKey key l = some b) :
    b ∈ l ∧ ∀ j ∈ l, keyLt (key j) (key b) = false := by
  cases l with
  | nil => simp [minByKey] at h
  | cons i t =>
    simp only [minByKey, Option.some.injEq] at h
    subst h
    have := minFold_spec key t [i] i (by simp)
      (by
        intro j hj
        simp only [List.mem_singleton] at hj
        subst hj
        exact keyLt_irrefl _)
    simpa using this

/-- Helper: membership in the unclaimed in-range candidate list. -/
theorem mem_gridFresh {cs : List Cand} {r : ℚ} {winners : List ℕ}
    {s : ℚ × ℚ} {i : ℕ} :
    i ∈ gridFresh cs r winners s ↔
      i < cs.length ∧ distSq ((candAt cs i).x, (candAt cs i).y) s ≤ r ^ 2 ∧
        i ∉ winners := by
  simp only [gridFresh, List.mem_filter, List.mem_range, decide_eq_true_eq]
  tauto

/-- Helper: one center-loop step keeps the winner list duplicate-free,
because the appended winner passed the unclaimed filter. -/
theorem gridStep_nodup (cs : List Cand) (r : ℚ) (winners : List ℕ)
    (s : ℚ × ℚ) (h : winners.Nodup) : (gridStep cs r winners s).Nodup := by
  unfold gridStep
  cases hm : minByKey (fun i => candKey (candAt cs i) s)
      (gridFresh cs r winners s) with
  | none => exact h
  | some b =>
    have hb := (minByKey_spec _ _ _ hm).1
    have hbw : b ∉ winners := (mem_gridFresh.mp hb).2.2
    simp [List.nodup_append, h, hbw]

/-- C2: grid exclusivity — for any Grid Coverage Selector run (any
candidate set, center list, and spacing), the winner list contains no
candidate index twice: once claimed for one center, a point is excluded
from every later center's pool. -/
theorem c2_grid_exclusivity (cs : List Cand) (centers : List (ℚ × ℚ))
    (d : ℚ) : (znajdz_punkty_dla_siatki cs centers d).Nodup := by
  unfold znajdz_punkty_dla_siatki
  have key : ∀ (cl : List (ℚ × ℚ)) (w : List ℕ), w.Nodup →
      (cl.foldl (gridStep cs (d / 2)) w).Nodup := by
    intro cl
    induction cl with
    | nil => exact fun w hw => hw
    | cons c t ih => exact fun w hw => ih _ (gridStep_nodup _ _ _ _ hw)
  exact key centers [] List.nodup_nil

/-- C4: per-center winner selection — if no unclaimed candidate lies within
radius `d/2` of the center, the center yields no winner and is skipped;
otherwise exactly one winner is appended, it is unclaimed, within radius,
and no unclaimed in-range candidate has a lexicographically smaller
`(|height difference|, distance to center)` key (distances compared
squared). -/
theorem c4_winner_minimal_key (cs : List Cand) (d : ℚ) (winners : List ℕ)
    (s : ℚ × ℚ) :
    ((∀ j, j < cs.length →
        distSq ((candAt cs j).x, (candAt cs j).y) s ≤ (d / 2) ^ 2 →
        j ∈ winners) →
      gridStep cs (d / 2) winners s = winners)
    ∧ ((∃ j, j < cs.length ∧
        distSq ((candAt cs j).x, (candAt cs j).y) s ≤ (d / 2) ^ 2 ∧
        j ∉ winners) →
      ∃ b, gridStep cs (d / 2) winners s = winners ++ [b]
        ∧ b < cs.length
        ∧ distSq ((candAt cs b).x, (candAt cs b).y) s ≤ (d / 2) ^ 2
        ∧ b ∉ winners
        ∧ ∀ j, j < cs.length →
            distSq ((candAt cs j).x, (candAt cs j).y) s ≤ (d / 2) ^ 2 →
            j ∉ winners →
            keyLt (candKey (candAt cs j) s) (candKey (candAt cs b) s) = false) := by
  constructor
  · intro hall
    have hfr : gridFresh cs (d / 2) winners s = [] := by
      rw [List.eq_nil_iff_forall_not_mem]
      intro j hj
      obtain ⟨h1, h2, h3⟩ := mem_gridFresh.mp hj
      exact h3 (hall j h1 h2)
    unfold gridStep
    rw [hfr]
    rfl
  · rintro ⟨j, hj1, hj2, hj3⟩
    have hjf : j ∈ gridFresh cs (d / 2) winners s :=
      mem_gridFresh.mpr ⟨hj1, hj2, hj3⟩
    obtain ⟨b, hm⟩ : ∃ b, minByKey (fun i => candKey (candAt cs i) s)
        (gridFresh cs (d / 2) winners s) = some b := by
      cases hfr : gridFresh cs (d / 2) winners s with
      | nil => rw [hfr] at hjf; cases hjf
      | cons i t => exact ⟨_, rfl⟩
    obtain ⟨hbmem, hbmin⟩ := minByKey_spec _ _ _ hm
    obtain ⟨hb1, hb2, hb3⟩ := mem_gridFresh.mp hbmem
    refine ⟨b, ?_, hb1, hb2, hb3, ?_⟩
    · unfold gridStep
      rw [hm]
    · intro k hk1 hk2 hk3
      exact hbmin k (mem_gridFresh.mpr ⟨hk1, hk2, hk3⟩)

/-- Concrete candidate pair for the C4 witness: both within radius 5 of the
center `(0, 0)`; index 1 has the smaller height discrepancy. -/
def c4cs : List Cand := [⟨3, 0, 10, 21 / 2⟩, ⟨1, 0, 10, 51 / 5⟩]

/-- Witness for C4: at the concrete center `(0, 0)` with spacing `10` and
nothing yet claimed, a winner exists with the stated minimality. -/
theorem c4_witness :
    ∃ b, gridStep c4cs (10 / 2) [] ((0 : ℚ), (0 : ℚ)) = [] ++ [b]
      ∧ b < c4cs.length
      ∧ distSq ((candAt c4cs b).x, (candAt c4cs b).y) ((0 : ℚ), (0 : ℚ)) ≤
          ((10 : ℚ) / 2) ^ 2
      ∧ b ∉ ([] : List ℕ)
      ∧ ∀ j, j < c4cs.length →
          distSq ((candAt c4cs j).x, (candAt c4cs j).y) ((0 : ℚ), (0 : ℚ)) ≤
            ((10 : ℚ) / 2) ^ 2 →
          j ∉ ([] : List ℕ) →
          keyLt (candKey (candAt c4cs j) ((0 : ℚ), (0 : ℚ)))
            (candKey (candAt c4cs b) ((0 : ℚ), (0 : ℚ))) = false :=
  (c4_winner_minimal_key c4cs 10 [] ((0 : ℚ), (0 : ℚ))).2
    ⟨1, by decide, by norm_num [c4cs, candAt, distSq], by decide⟩

/-! ### `processor.py` (`process_data`)

The pairing branch, the Geoportal-height branch, the accuracy flag and the
final sort of `process_data` (processor.py:91-293) are embedded.  The
Geoportal height dictionary (keyed in the source by the fixed 2-decimal
string of the transformed pair; writer and reader format the same floats
identically) is abstracted as an oracle `geo : ℚ × ℚ → Option ℚ` on the
transformed `(northing, easting)` pair.  As before, Euclidean distances
are carried squared. -/

/-- Python's `round` to an integer: banker's rounding, half to even.
`ℚ` has no signed zero, so the `-0.0 → 0.0` normalization
(processor.py:209,226-228) is the identity here. -/
def roundHalfEven (q : ℚ) : ℤ :=
  if Even ⌊q⌋ then
    if q - ⌊q⌋ ≤ 1 / 2 then ⌊q⌋ else ⌊q⌋ + 1
  else
    if q - ⌊q⌋ < 1 / 2 then ⌊q⌋ else ⌊q⌋ + 1

/-- Python's `round(q, d)`. -/
def pyRound (d : ℕ) (q : ℚ) : ℚ := (roundHalfEven (q * 10 ^ d) : ℚ) / 10 ^ d

/-- Comparison row `j` of the comparison frame (all used indices are in
range). -/
def rawAt (comp : List RawRow) (j : ℕ) : RawRow := comp.getD j ⟨"", 0, 0, 0⟩

/-- Embeds `tree_comparison.query([x, y])`: index of the first
minimal-distance comparison point (scipy returns the unique nearest; the
tie choice among exact duplicates is unspecified there and unused by the
claims). -/
def nearestIdx (q : ℚ × ℚ) (comp : List (ℚ × ℚ)) : ℕ :=
  (List.range comp.length).foldl
    (fun b j =>
      if distSq (comp.getD j (0, 0)) q < distSq (comp.getD b (0, 0)) q then j
      else b) 0

/-- Squared distance from `q` to its nearest comparison point. -/
def nearestDistSq (q : ℚ × ℚ) (comp : List (ℚ × ℚ)) : ℚ :=
  distSq (comp.getD (nearestIdx q comp) (0, 0)) q

/-- The data recorded for an accepted pairing match
(processor.py:195-212): matched row, squared pair distance, and the
rounded signed height difference `diff_h` (always numeric here: `ℚ`
heights never raise `ValueError`). -/
structure MatchData where
  idx : ℕ
  id_por : String
  x_por : ℚ
  y_por : ℚ
  h_por : ℚ
  odl_sq : ℚ
  diff_h : ℚ
deriving DecidableEq

/-- Embeds the pairing branch of `process_data` for one reference point
(processor.py:180-212): query the nearest comparison point and accept the
match iff `max_distance == 0 or distance <= max_distance`, where the
Euclidean comparison `sqrt dSq ≤ m` is encoded as `0 ≤ m ∧ dSq ≤ m²`
(equivalent for every real `m` since `dSq ≥ 0`). -/
def pairPoint (comp : List RawRow) (max_distance : ℚ) (rd : ℕ)
    (pt : RawRow) : Option MatchData :=
  let j := nearestIdx (pt.x, pt.y) (comp.map fun r => (r.x, r.y))
  let c := rawAt comp j
  let dSq := distSq (c.x, c.y) (pt.x, pt.y)
  if max_distance = 0 ∨ (0 ≤ max_distance ∧ dSq ≤ max_distance ^ 2) then
    some ⟨j, c.id, c.x, c.y, c.h, dSq, pyRound rd (pt.h - c.h)⟩
  else none

/-- One result record of `process_data`.  `pairing` is present exactly when
a non-empty comparison frame was supplied (`some none` = the
`"brak_danych"` row of an unaccepted match); `geoFields` is present
exactly when the Geoportal branch ran, and holds
`(geoportal_h?, diff_h_geoportal?)` with `none` for `"brak_danych"`;
`osiaga` models the optional `osiaga_dokladnosc` column. -/
structure ResultRow where
  id_odniesienia : String
  x_odniesienia : ℚ
  y_odniesienia : ℚ
  h_odniesienia : ℚ
  pairing : Option (Option MatchData)
  geoFields : Option (Option ℚ × Option ℚ)
  osiaga : Option Bool
deriving DecidableEq

/-- Embeds the accuracy-flag block (processor.py:238-249): the Geoportal
tolerance applies when the `diff_h_geoportal` key exists (even to skip a
non-numeric value); `elif` the comparison tolerance applies when the
`diff_h` key exists; a non-numeric difference sets no flag. -/
def osiagaField (gtol ctol : Option ℚ) (gdiff fdiff : Option (Option ℚ)) :
    Option Bool :=
  match gtol, gdiff with
  | some t, some dv =>
    match dv with
    | some v => some (decide (|v| ≤ t))
    | none => none
  | _, _ =>
    match ctol, fdiff with
    | some t, some dv =>
      match dv with
      | some v => some (decide (|v| ≤ t))
      | none => none
    | _, _ => none

/-- Embeds the per-point body of the main loop of `process_data`
(processor.py:170-251).  The pairing fields exist only when a comparison
frame is present and non-empty (the `KDTree` is only built then); the
Geoportal fields exist only when `use_geoportal` and the index is covered
by the transformed list. -/
def buildRow (comp? : Option (List RawRow)) (use_geoportal : Bool)
    (max_distance : ℚ) (rd : ℕ) (ctol gtol : Option ℚ)
    (transformed : List (Option (ℚ × ℚ))) (geo : ℚ × ℚ → Option ℚ)
    (i : ℕ) (pt : RawRow) : ResultRow :=
  let pairing : Option (Option MatchData) :=
    match comp? with
    | none => none
    | some comp =>
        if comp.isEmpty then none else some (pairPoint comp max_distance rd pt)
  let geoF : Option (Option ℚ × Option ℚ) :=
    if use_geoportal ∧ i < transformed.length then
      some (match transformed.getD i none with
        | none => (none, none)
        | some pt2180 =>
            match geo (pt2180.2, pt2180.1) with
            | none => (none, none)
            | some h => (some h, some (pyRound rd (pt.h - h))))
    else none
  { id_odniesienia := pt.id, x_odniesienia := pt.x, y_odniesienia := pt.y,
    h_odniesienia := pt.h, pairing := pairing, geoFields := geoF,
    osiaga := osiagaField gtol ctol (geoF.map (fun p => p.2))
      (pairing.map (fun inner => inner.map (fun md => md.diff_h))) }

/-- The result list in input order, before the final sort
(processor.py:105-259): geodetic roles are assigned, the transform runs
only in Geoportal mode, and each input row is processed positionally. -/
def process_rows (input : List RawRow) (comp? : Option (List RawRow))
    (use_geoportal : Bool) (max_distance : ℚ) (rd : ℕ)
    (ctol gtol : Option ℚ) (env : TransEnv) (geo : ℚ × ℚ → Option ℚ) :
    List ResultRow :=
  let transformed :=
    if use_geoportal then
      transform_coordinates_parallel env (assign_geodetic_roles input)
    else []
  input.enum.map (fun p =>
    buildRow comp? use_geoportal max_distance rd ctol gtol transformed geo
      p.1 p.2)

/-- The sort column chosen at processor.py:261-265: `diff_h_geoportal` in
Geoportal mode when that column exists, else `diff_h` outside Geoportal
mode when that column exists, else no sort.  A pandas column exists iff
some row carries the key. -/
inductive SortCol where
  | geoCol : SortCol
  | fileCol : SortCol
deriving DecidableEq

/-- Which column (if any) the final sort uses. -/
def sortColOf (use_geoportal : Bool) (rows : List ResultRow) :
    Option SortCol :=
  if use_geoportal ∧ rows.any (fun r => r.geoFields.isSome) then
    some SortCol.geoCol
  else if ¬use_geoportal ∧ rows.any (fun r => r.pairing.isSome) then
    some SortCol.fileCol
  else none

/-- A row's value in the chosen difference column (`none` = key absent or
`"brak_danych"`, which `pd.to_numeric(errors="coerce")` turns into NaN). -/
def diffColValue : SortCol → ResultRow → Option ℚ
  | SortCol.geoCol, r => r.geoFields.bind (fun p => p.2)
  | SortCol.fileCol, r => r.pairing.bind (fun inner => inner.map (fun md => md.diff_h))

/-- The sort key `pd.to_numeric(col, errors="coerce").abs()` with NaN as
`⊥`: pandas sorts descending with `na_position="last"`, i.e. exactly by
this key descending. -/
def rankOf (k : SortCol) (r : ResultRow) : WithBot ℚ :=
  match diffColValue k r with
  | none => ⊥
  | some v => ((|v| : ℚ) : WithBot ℚ)

/-- Embeds the final sort (processor.py:267-273): when a sort column is
chosen, sort by the absolute numeric value descending (NaN last).  pandas'
unstable quicksort is modelled by insertion sort: the claims constrain
only the key ordering and the multiset of rows, which any correct sort
realizes. -/
def sortStep (use_geoportal : Bool) (rows : List ResultRow) :
    List ResultRow :=
  match sortColOf use_geoportal rows with
  | none => rows
  | some k => List.insertionSort (fun a b => rankOf k b ≤ rankOf k a) rows

/-- Embeds `process_data` (processor.py:91-293) up to the final column
subsetting (processor.py:275-293), which only drops columns and preserves
row order. -/
def process_data (input : List RawRow) (comp? : Option (List RawRow))
    (use_geoportal : Bool) (max_distance : ℚ) (rd : ℕ)
    (ctol gtol : Option ℚ) (env : TransEnv) (geo : ℚ × ℚ → Option ℚ) :
    List ResultRow :=
  sortStep use_geoportal
    (process_rows input comp? use_geoportal max_distance rd ctol gtol env geo)

/-! ### Theorems for C5 and C10 -/

/-- Helper: the argmin fold inside `nearestIdx` lands in the seen elements
and is minimal among them. -/
theorem argminFold_spec (key : ℕ → ℚ) :
    ∀ (t seen : List ℕ) (acc : ℕ), acc ∈ seen →
      (∀ j ∈ seen, ¬ key j < key acc) →
      (t.foldl (fun b j => if key j < key b then j else b) acc) ∈ seen ++ t
      ∧ ∀ j ∈ seen ++ t,
          ¬ key j < key (t.foldl (fun b j => if key j < key b then j else b) acc) := by
  intro t
  induction t with
  | nil =>
    intro seen acc hmem hmin
    rw [List.append_nil]
    exact ⟨hmem, hmin⟩
  | cons j t ih =>
    intro seen acc hmem hmin
    simp only [List.foldl_cons]
    by_cases hj : key j < key acc
    · rw [if_pos hj]
      have h2 : ∀ x ∈ seen ++ [j], ¬ key x < key j := by
        intro x hx
        rcases List.mem_append.mp hx with hx | hx
        · exact fun hcon => hmin x hx (lt_trans hcon hj)
        · simp only [List.mem_singleton] at hx
          subst hx
          exact lt_irrefl _
      have := ih (seen ++ [j]) j (by simp) h2
      simpa [List.append_assoc] using this
    · rw [if_neg hj]
      have h2 : ∀ x ∈ seen ++ [j], ¬ key x < key acc := by
        intro x hx
        rcases List.mem_append.mp hx with hx | hx
        · exact hmin x hx
        · simp only [List.mem_singleton] at hx
          subst hx
          exact hj
      have := ih (seen ++ [j]) acc (by simp [hmem]) h2
      simpa [List.append_assoc] using this

/-- Helper: `nearestIdx` is in range and realizes the minimal distance. -/
theorem nearestIdx_spec (q : ℚ × ℚ) (comp : List (ℚ × ℚ))
    (h : comp ≠ []) :
    nearestIdx q comp < comp.length ∧
    ∀ j, j < comp.length →
      nearestDistSq q comp ≤ distSq (comp.getD j (0, 0)) q := by
  have h0 : 0 < comp.length := List.length_pos.mpr h
  have spec := argminFold_spec (fun i => distSq (comp.getD i (0, 0)) q)
    (List.range comp.length) [0] 0 (by simp) (by simp)
  rw [show ([0] : List ℕ) ++ List.range comp.length
      = 0 :: List.range comp.length from rfl] at spec
  constructor
  · rcases List.mem_cons.mp spec.1 with h1 | h1
    · rw [nearestIdx, h1]; exact h0
    · exact List.mem_range.mp (by simpa [nearestIdx] using h1)
  · intro j hj
    have hmem : j ∈ 0 :: List.range comp.length :=
      List.mem_cons_of_mem _ (List.mem_range.mpr hj)
    exact le_of_not_lt (spec.2 j hmem)

/-- Helper: the mapped coordinate list read at an in-range index. -/
theorem coords_getD (comp : List RawRow) (j : ℕ) (hj : j < comp.length) :
    (comp.map (fun r => (r.x, r.y))).getD j (0, 0) =
      ((rawAt comp j).x, (rawAt comp j).y) := by
  have hj' : j < (comp.map (fun r => (r.x, r.y))).length := by simpa using hj
  rw [List.getD_eq_getElem _ _ hj', List.getElem_map, rawAt,
    List.getD_eq_getElem _ _ hj]

/-- C5: pairing distance bound — against a non-empty comparison set, a
reference point always receives a match when `max_distance = 0`; for
`max_distance > 0` it receives a match iff the (squared) distance to its
nearest comparison point is at most `max_distance²`; the recorded match,
when any, is the nearest comparison point, whose distance is minimal over
the whole comparison set. -/
theorem c5_pairing_distance_bound (comp : List RawRow) (m : ℚ) (rd : ℕ)
    (pt : RawRow) (hcomp : comp ≠ []) :
    (m = 0 → (pairPoint comp m rd pt).isSome)
    ∧ (0 < m → ((pairPoint comp m rd pt).isSome ↔
        nearestDistSq (pt.x, pt.y) (comp.map (fun r => (r.x, r.y))) ≤ m ^ 2))
    ∧ (∀ j, j < comp.length →
        nearestDistSq (pt.x, pt.y) (comp.map (fun r => (r.x, r.y))) ≤
          distSq ((rawAt comp j).x, (rawAt comp j).y) (pt.x, pt.y))
    ∧ (∀ md, pairPoint comp m rd pt = some md →
        md.idx = nearestIdx (pt.x, pt.y) (comp.map (fun r => (r.x, r.y)))) := by
  have hmapne : comp.map (fun r => (r.x, r.y)) ≠ [] := by
    simpa [List.map_eq_nil_iff] using hcomp
  have hspec := nearestIdx_spec (pt.x, pt.y) (comp.map (fun r => (r.x, r.y)))
    hmapne
  have hidx : nearestIdx (pt.x, pt.y) (comp.map (fun r => (r.x, r.y))) <
      comp.length := by
    simpa using hspec.1
  have hdist : nearestDistSq (pt.x, pt.y) (comp.map (fun r => (r.x, r.y))) =
      distSq ((rawAt comp (nearestIdx (pt.x, pt.y)
        (comp.map (fun r => (r.x, r.y))))).x,
        (rawAt comp (nearestIdx (pt.x, pt.y)
          (comp.map (fun r => (r.x, r.y))))).y) (pt.x, pt.y) := by
    rw [nearestDistSq, coords_getD _ _ hidx]
  refine ⟨?_, ?_, ?_, ?_⟩
  · intro hm
    subst hm
    simp [pairPoint]
  · intro hm
    rw [hdist]
    simp only [pairPoint]
    by_cases hacc : distSq ((rawAt comp (nearestIdx (pt.x, pt.y)
        (comp.map (fun r => (r.x, r.y))))).x,
        (rawAt comp (nearestIdx (pt.x, pt.y)
          (comp.map (fun r => (r.x, r.y))))).y) (pt.x, pt.y) ≤ m ^ 2
    · rw [if_pos (Or.inr ⟨le_of_lt hm, hacc⟩)]
      simpa using hacc
    · rw [if_neg ?hneg]
      · simpa using hacc
      case hneg =>
        rintro (h0 | ⟨-, hle⟩)
        · exact absurd h0 (ne_of_gt hm)
        · exact hacc hle
  · intro j hj
    rw [hdist, ← coords_getD _ _ hj]
    have hj' : j < (comp.map (fun r => (r.x, r.y))).length := by simpa using hj
    have := hspec.2 j hj'
    rw [hdist] at this
    exact this
  · intro md hmd
    simp only [pairPoint] at hmd
    split at hmd
    · cases hmd
      rfl
    · cases hmd

/-- Witness for C5: the spec's concrete pairing scenario, reference
`(100, 100, h = 10)` against the single comparison point
`(103, 100, h = 21/2)` with `max_distance = 5`. -/
theorem c5_witness :
    ((5 : ℚ) = 0 →
      (pairPoint [⟨"C", 103, 100, 21 / 2⟩] 5 1 ⟨"R", 100, 100, 10⟩).isSome)
    ∧ (0 < (5 : ℚ) →
      ((pairPoint [⟨"C", 103, 100, 21 / 2⟩] 5 1 ⟨"R", 100, 100, 10⟩).isSome ↔
        nearestDistSq (100, 100)
          (([⟨"C", 103, 100, 21 / 2⟩] : List RawRow).map
            (fun r => (r.x, r.y))) ≤ (5 : ℚ) ^ 2))
    ∧ (∀ j, j < ([⟨"C", 103, 100, 21 / 2⟩] : List RawRow).length →
        nearestDistSq (100, 100)
          (([⟨"C", 103, 100, 21 / 2⟩] : List RawRow).map
            (fun r => (r.x, r.y))) ≤
          distSq ((rawAt [⟨"C", 103, 100, 21 / 2⟩] j).x,
            (rawAt [⟨"C", 103, 100, 21 / 2⟩] j).y) (100, 100))
    ∧ (∀ md, pairPoint [⟨"C", 103, 100, 21 / 2⟩] 5 1 ⟨"R", 100, 100, 10⟩ =
          some md →
        md.idx = nearestIdx (100, 100)
          (([⟨"C", 103, 100, 21 / 2⟩] : List RawRow).map
            (fun r => (r.x, r.y)))) :=
  c5_pairing_distance_bound [⟨"C", 103, 100, 21 / 2⟩] 5 1 ⟨"R", 100, 100, 10⟩
    (by simp)

/-- C10: the table returned by `process_data` is not in input order — when
a height-difference sort column is chosen (`diff_h_geoportal` in Geoportal
mode, else `diff_h`), the output is a permutation of the per-point rows
sorted by the absolute numeric value of that column in descending order;
rows with a non-numeric value rank `⊥`, hence come last. -/
theorem c10_result_sorted (input : List RawRow) (comp? : Option (List RawRow))
    (use_geoportal : Bool) (m : ℚ) (rd : ℕ) (ctol gtol : Option ℚ)
    (env : TransEnv) (geo : ℚ × ℚ → Option ℚ) :
    (process_data input comp? use_geoportal m rd ctol gtol env geo).Perm
      (process_rows input comp? use_geoportal m rd ctol gtol env geo)
    ∧ ∀ k, sortColOf use_geoportal
        (process_rows input comp? use_geoportal m rd ctol gtol env geo) =
          some k →
      (process_data input comp? use_geoportal m rd ctol gtol env geo).Sorted
        (fun a b => rankOf k b ≤ rankOf k a) := by
  unfold process_data sortStep
  cases hc : sortColOf use_geoportal
      (process_rows input comp? use_geoportal m rd ctol gtol env geo) with
  | none =>
    exact ⟨List.Perm.refl _, fun k hk => nomatch hk⟩
  | some k0 =>
    constructor
    · exact List.perm_insertionSort _ _
    · intro k hk
      obtain rfl : k0 = k := Option.some_inj.mp hk
      haveI : IsTotal ResultRow (fun a b => rankOf k0 b ≤ rankOf k0 a) :=
        ⟨fun a b => le_total (rankOf k0 b) (rankOf k0 a)⟩
      haveI : IsTrans ResultRow (fun a b => rankOf k0 b ≤ rankOf k0 a) :=
        ⟨fun _ _ _ h1 h2 => le_trans h2 h1⟩
      exact List.sorted_insertionSort _ _

/-- Concrete input rows for the C10 witness. -/
def c10input : List RawRow := [⟨"A", 0, 0, 6⟩, ⟨"B", 3, 4, 100⟩]

/-- Concrete comparison rows for the C10 witness. -/
def c10comp : List RawRow := [⟨"C1", 0, 0, 5⟩]

/-- Witness for C10: with a non-empty comparison frame, no Geoportal mode
and unbounded distance, the `diff_h` column is chosen and the returned
table is sorted by its absolute value descending. -/
theorem c10_witness :
    (process_data c10input (some c10comp) false 0 1 none none
        ⟨fun _ => none⟩ (fun _ => none)).Sorted
      (fun a b => rankOf SortCol.fileCol b ≤ rankOf SortCol.fileCol a) :=
  (c10_result_sorted c10input (some c10comp) false 0 1 none none
      ⟨fun _ => none⟩ (fun _ => none)).2 SortCol.fileCol (by rfl)

end DiffH
